import Mathlib

/-!
Verification development for the pokemon-data-platform ETL pipeline.

The Lean definitions below are a shallow embedding of the Python source:

* `src/loading/db_loader.py` — the `DatabaseLoader` upsert methods
  (query by natural key, update in place or insert, commit/rollback);
* `src/analytics/type_analyzer.py` — the `TypeAnalyzer` read-only
  queries (effectiveness matrix, weakness profile, counter
  recommendation);
* `src/ingestion/api_client.py` — the `PokemonApiClient` file cache,
  cache key derivation and retry loop;
* `src/transformation/pokemon_transformer.py` — the move-association
  filtering of `PokemonTransformer.transform_pokemon`.

The relational store is modelled as lists of row records (one list per
table, in insertion order, surrogate autoincrement ids omitted since no
code path reads them).  Effectiveness multipliers are modelled as `ℚ`:
every value handled by the code is a product of members of
{0, 0.5, 1, 2}, all exactly representable, so rational arithmetic
coincides with the Python float arithmetic on every reachable value.
-/

namespace PokemonPlatform

/-! ## Relational rows (src/models/pokemon.py, type.py, ability.py, move.py) -/

/-- A row of the `pokemon` table.  `base_experience` and `order_num` are
nullable columns. -/
structure PokemonRow where
  id : Int
  name : String
  height : Int
  weight : Int
  base_experience : Option Int
  is_default : Bool
  order_num : Option Int
  deriving Repr, DecidableEq

/-- A row of the `pokemon_stats` table. -/
structure PokemonStatRow where
  pokemon_id : Int
  stat_name : String
  base_value : Int
  deriving Repr, DecidableEq

/-- A row of the `types` table. -/
structure TypeRow where
  id : Int
  name : String
  deriving Repr, DecidableEq

/-- A row of the `type_effectiveness` table. -/
structure TypeEffectivenessRow where
  attack_type_id : Int
  defense_type_id : Int
  effectiveness : ℚ
  deriving Repr, DecidableEq

/-- A row of the `pokemon_types` association table. -/
structure PokemonTypeRow where
  pokemon_id : Int
  type_id : Int
  slot : Int
  deriving Repr, DecidableEq

/-- A row of the `pokemon_abilities` association table. -/
structure PokemonAbilityRow where
  pokemon_id : Int
  ability_id : Int
  is_hidden : Bool
  slot : Int
  deriving Repr, DecidableEq

/-- A row of the `pokemon_moves` association table. -/
structure PokemonMoveRow where
  pokemon_id : Int
  move_id : Int
  level_learned_at : Int
  learn_method : String
  deriving Repr, DecidableEq

/-- The relational store: one list of rows per table touched by the
claims, each list in physical insertion order. -/
structure Store where
  pokemon : List PokemonRow
  pokemon_stats : List PokemonStatRow
  types : List TypeRow
  type_effectiveness : List TypeEffectivenessRow
  pokemon_types : List PokemonTypeRow
  pokemon_abilities : List PokemonAbilityRow
  pokemon_moves : List PokemonMoveRow
  deriving Repr, DecidableEq

/-- The empty store. -/
def Store.empty : Store := ⟨[], [], [], [], [], [], []⟩

/-! ## DatabaseLoader upserts (src/loading/db_loader.py)

Every load method shares one shape: `query(...).filter(<natural
key>).first()`; if a row is found, overwrite its mutable fields in
place; otherwise `add` a fresh row (appended at the end of the table).
`update_first` is `.first()` + in-place mutation, `upsert_row` is the
whole if/else. -/

/-- Replace the first element satisfying `p` by its image under `f`
(the SQLAlchemy `.first()` + `setattr` update path). -/
def update_first (p : α → Bool) (f : α → α) : List α → List α
  | [] => []
  | x :: xs => if p x then f x :: xs else x :: update_first p f xs

/-- Query by natural key (`p`); update the first match in place with
`f`, or append the freshly constructed row `new` when no row matches. -/
def upsert_row (p : α → Bool) (f : α → α) (new : α) (rows : List α) : List α :=
  if rows.any p then update_first p f rows else rows ++ [new]

/-- `DatabaseLoader.load_pokemon`, success path.  The update branch
runs `setattr` for every key of the transformed dict, i.e. it
overwrites the whole row. -/
def load_pokemon (s : Store) (d : PokemonRow) : Store :=
  { s with pokemon := upsert_row (fun x => x.id == d.id) (fun _ => d) d s.pokemon }

/-- One iteration of the `DatabaseLoader.load_pokemon_stats` loop:
natural key `(pokemon_id, stat_name)`, update overwrites `base_value`. -/
def upsert_pokemon_stat (s : Store) (d : PokemonStatRow) : Store :=
  { s with
    pokemon_stats :=
      upsert_row
        (fun x => x.pokemon_id == d.pokemon_id && x.stat_name == d.stat_name)
        (fun x => { x with base_value := d.base_value }) d s.pokemon_stats }

/-- `DatabaseLoader.load_pokemon_stats`, success path. -/
def load_pokemon_stats (s : Store) (data : List PokemonStatRow) : Store :=
  data.foldl upsert_pokemon_stat s

/-- One iteration of the `DatabaseLoader.load_types` loop: natural key
`id`, update overwrites `name`. -/
def upsert_type (s : Store) (d : TypeRow) : Store :=
  { s with
    types :=
      upsert_row (fun x => x.id == d.id) (fun x => { x with name := d.name }) d s.types }

/-- `DatabaseLoader.load_types`, success path. -/
def load_types (s : Store) (data : List TypeRow) : Store :=
  data.foldl upsert_type s

/-- One iteration of the `DatabaseLoader.load_type_effectiveness` loop:
natural key `(attack_type_id, defense_type_id)`, update overwrites
`effectiveness`. -/
def upsert_type_effectiveness (s : Store) (d : TypeEffectivenessRow) : Store :=
  { s with
    type_effectiveness :=
      upsert_row
        (fun x => x.attack_type_id == d.attack_type_id && x.defense_type_id == d.defense_type_id)
        (fun x => { x with effectiveness := d.effectiveness }) d s.type_effectiveness }

/-- `DatabaseLoader.load_type_effectiveness`, success path. -/
def load_type_effectiveness (s : Store) (data : List TypeEffectivenessRow) : Store :=
  data.foldl upsert_type_effectiveness s

/-- One iteration of the `DatabaseLoader.load_pokemon_types` loop:
natural key `(pokemon_id, type_id)`, update overwrites `slot`. -/
def upsert_pokemon_type (s : Store) (d : PokemonTypeRow) : Store :=
  { s with
    pokemon_types :=
      upsert_row
        (fun x => x.pokemon_id == d.pokemon_id && x.type_id == d.type_id)
        (fun x => { x with slot := d.slot }) d s.pokemon_types }

/-- `DatabaseLoader.load_pokemon_types`, success path. -/
def load_pokemon_types (s : Store) (data : List PokemonTypeRow) : Store :=
  data.foldl upsert_pokemon_type s

/-- `DatabaseLoader._load_pokemon_ability`, success path: natural key
`(pokemon_id, ability_id)`, update overwrites `is_hidden` and `slot`. -/
def load_pokemon_ability (s : Store) (d : PokemonAbilityRow) : Store :=
  { s with
    pokemon_abilities :=
      upsert_row
        (fun x => x.pokemon_id == d.pokemon_id && x.ability_id == d.ability_id)
        (fun x => { x with is_hidden := d.is_hidden, slot := d.slot }) d s.pokemon_abilities }

/-- `DatabaseLoader._load_pokemon_move`, success path: natural key
`(pokemon_id, move_id, learn_method)`, update overwrites
`level_learned_at`. -/
def load_pokemon_move (s : Store) (d : PokemonMoveRow) : Store :=
  { s with
    pokemon_moves :=
      upsert_row
        (fun x => x.pokemon_id == d.pokemon_id && x.move_id == d.move_id &&
          x.learn_method == d.learn_method)
        (fun x => { x with level_learned_at := d.level_learned_at }) d s.pokemon_moves }

/-! ## Transactional behaviour of the load methods
(src/loading/db_loader.py, `try: ... commit / except: rollback; raise`)

SQLAlchemy sessions buffer mutations: queries and `add`/`setattr` act
on the pending state, `commit` publishes it, `rollback` discards it.
`Session` holds both states; an exception oracle says which loop
iteration (if any) raises and whether the final `commit` raises. -/

/-- A database session: the durably committed store and the pending
uncommitted working state. -/
structure Session where
  committed : Store
  pending : Store
  deriving Repr, DecidableEq

/-- A session freshly opened on store `s` (no pending work). -/
def Session.clean (s : Store) : Session := ⟨s, s⟩

/-- `session.rollback()`: discard pending work. -/
def Session.rollback (s : Session) : Session := ⟨s.committed, s.committed⟩

/-- `session.commit()` succeeding: publish pending work. -/
def Session.commitOk (s : Session) : Session := ⟨s.pending, s.pending⟩

/-- Exceptions observable inside a load method: one raised while
processing row `i` of the input list (constraint violation,
connectivity loss, ...), or one raised by the final `commit`. -/
inductive LoadError where
  | row (i : Nat)
  | commitFailed
  deriving Repr, DecidableEq

/-- The upsert loop of a load method, with an exception oracle
`throwAt`: iteration `i` raises before mutating anything when
`throwAt i` is true. -/
def run_loop (step : Store → α → Store) (throwAt : Nat → Bool) :
    Store → List α → Nat → Except LoadError Store
  | st, [], _ => Except.ok st
  | st, d :: rest, i =>
    if throwAt i then Except.error (LoadError.row i)
    else run_loop step throwAt (step st d) rest (i + 1)

/-- `try: <upsert loop>; commit / except: rollback; raise`, the shared
shape of every `DatabaseLoader` write method.  Returns the re-raised
exception (if any) and the session left behind. -/
def load_in_tx (step : Store → α → Store) (sess : Session) (data : List α)
    (throwAt : Nat → Bool) (commitFails : Bool) : Except LoadError Unit × Session :=
  match run_loop step throwAt sess.pending data 0 with
  | Except.error e => (Except.error e, sess.rollback)
  | Except.ok pend =>
    if commitFails then (Except.error LoadError.commitFailed, sess.rollback)
    else (Except.ok (), Session.commitOk { sess with pending := pend })

/-- `DatabaseLoader.load_types` with its transaction boundary. -/
def load_types_tx (sess : Session) (data : List TypeRow)
    (throwAt : Nat → Bool) (commitFails : Bool) : Except LoadError Unit × Session :=
  load_in_tx upsert_type sess data throwAt commitFails

/-- `DatabaseLoader.load_type_effectiveness` with its transaction
boundary. -/
def load_type_effectiveness_tx (sess : Session) (data : List TypeEffectivenessRow)
    (throwAt : Nat → Bool) (commitFails : Bool) : Except LoadError Unit × Session :=
  load_in_tx upsert_type_effectiveness sess data throwAt commitFails

/-! ## TypeAnalyzer (src/analytics/type_analyzer.py)

`get_effectiveness_matrix` runs one SQL query joining
`type_effectiveness` with `types` twice (inner join on attack and
defense type ids), pivots the flat rows into a matrix whose index is
the distinct attacking type names and whose columns are the distinct
defending type names, and fills the missing cells with `1.0`.  The
pandas pivot also orders the labels lexicographically; none of the
properties below depend on label order, so deduplication order is not
modelled. -/

/-- The flat result set of the matrix query:
`(attacking_type, defending_type, effectiveness)` per stored
`type_effectiveness` row whose two type ids resolve in `types`
(inner-join semantics). -/
def flat_effectiveness_rows (s : Store) : List (String × String × ℚ) :=
  s.type_effectiveness.flatMap fun te =>
    match s.types.find? (fun t => t.id == te.attack_type_id),
          s.types.find? (fun t => t.id == te.defense_type_id) with
    | some ta, some td => [(ta.name, td.name, te.effectiveness)]
    | _, _ => []

/-- The matrix row labels: distinct attacking type names of the flat
result set. -/
def matrix_index (s : Store) : List String :=
  ((flat_effectiveness_rows s).map (fun r => r.1)).dedup

/-- The matrix column labels: distinct defending type names of the
flat result set. -/
def matrix_columns (s : Store) : List String :=
  ((flat_effectiveness_rows s).map (fun r => r.2.1)).dedup

/-- The pivoted cell for `(atk, dfn)`: the stored value, or `1.0`
after `fillna` when no stored row exists for the pair. -/
def matrix_entry (s : Store) (atk dfn : String) : ℚ :=
  match (flat_effectiveness_rows s).find? (fun r => r.1 == atk && r.2.1 == dfn) with
  | some r => r.2.2
  | none => 1

/-- Whether the pivoted matrix has a cell for `(atk, dfn)`. -/
def matrix_has_entry (s : Store) (atk dfn : String) : Prop :=
  atk ∈ matrix_index s ∧ dfn ∈ matrix_columns s

instance (s : Store) (atk dfn : String) : Decidable (matrix_has_entry s atk dfn) :=
  inferInstanceAs (Decidable (_ ∧ _))

/-- Generic stable insertion into a sorted list: `before y x` keeps the
existing element `y` ahead of the inserted `x`. -/
def insert_sorted (before : α → α → Bool) (x : α) : List α → List α
  | [] => [x]
  | y :: ys => if before y x then y :: insert_sorted before x ys else x :: y :: ys

/-- Generic insertion sort with comparator `before`. -/
def sort_with (before : α → α → Bool) : List α → List α
  | [] => []
  | x :: xs => insert_sorted before x (sort_with before xs)

/-- `ORDER BY pt.slot` on the Pokémon's type associations. -/
def sort_by_slot (l : List PokemonTypeRow) : List PokemonTypeRow :=
  sort_with (fun y x => decide (y.slot ≤ x.slot)) l

/-- `df.sort_values(by="effectiveness", ascending=False)` on
`(attacking_type, effectiveness)` rows. -/
def sort_desc (l : List (String × ℚ)) : List (String × ℚ) :=
  sort_with (fun y x => decide (x.2 ≤ y.2)) l

/-- The first query of `get_pokemon_weakness_profile`: the Pokémon's
type names via `pokemon_types` joined with `types`, ordered by slot. -/
def pokemon_type_names (s : Store) (pid : Int) : List String :=
  (sort_by_slot (s.pokemon_types.filter (fun pt => pt.pokemon_id == pid))).flatMap fun pt =>
    match s.types.find? (fun t => t.id == pt.type_id) with
    | some t => [t.name]
    | none => []

/-- The combined effectiveness of `atk` against a list of defending
type names: multiplicative fold starting at `1.0`, skipping defending
names that are not matrix columns. -/
def combined_effectiveness (s : Store) (ptNames : List String) (atk : String) : ℚ :=
  ptNames.foldl
    (fun acc dfn => if (matrix_columns s).contains dfn then acc * matrix_entry s atk dfn else acc) 1

/-- `TypeAnalyzer.get_pokemon_weakness_profile`.  Returns `none` when
the method raises: the final name query does `fetchone()[0]`, which
fails when the Pokémon row is absent (only reached when the type list
is non-empty; a typeless Pokémon returns the empty frame early). -/
def get_pokemon_weakness_profile (s : Store) (pid : Int) : Option (List (String × ℚ)) :=
  let ptNames := pokemon_type_names s pid
  if ptNames.isEmpty then some []
  else
    let df := (matrix_index s).map fun atk => (atk, combined_effectiveness s ptNames atk)
    let df := sort_desc df
    match s.pokemon.find? (fun p => p.id == pid) with
    | some _ => some df
    | none => none

/-- The effectiveness label of `recommend_counter_types`.  The Python
code produces the strings `"4× (extremely effective)"`,
`"2× (super effective)"` and `f"{value}× (effective)"`; the inductive
keeps the branch taken and the interpolated value instead of
re-modelling float formatting. -/
inductive EffLabel where
  | extremelyEffective
  | superEffective
  | plainValue (v : ℚ)
  deriving Repr, DecidableEq

/-- `get_effectiveness_label` from `recommend_counter_types`. -/
def get_effectiveness_label (v : ℚ) : EffLabel :=
  if 4 ≤ v then EffLabel.extremelyEffective
  else if 2 ≤ v then EffLabel.superEffective
  else EffLabel.plainValue v

/-- `TypeAnalyzer.recommend_counter_types`.  `none` models the method
raising (propagated from the profile, or from its own `fetchone()[0]`
name lookup). -/
def recommend_counter_types (s : Store) (pid : Int) (top_n : Nat) :
    Option (List (String × ℚ × EffLabel)) :=
  match get_pokemon_weakness_profile s pid with
  | none => none
  | some df =>
    if df.isEmpty then some []
    else
      let counters := df.filter fun r => decide (1 < r.2)
      let counters := sort_desc counters
      let counters := if top_n < counters.length then counters.take top_n else counters
      let labeled := counters.map fun r => (r.1, r.2, get_effectiveness_label r.2)
      match s.pokemon.find? (fun p => p.id == pid) with
      | some _ => some labeled
      | none => none

/-! ## PokemonApiClient (src/ingestion/api_client.py)

The cache is one JSON file per endpoint under `cache_dir`; the file
system is modelled as an association list from path to stored JSON.
The network is an oracle indexed by attempt number (the `backoff`
decorator re-runs the whole `get` body up to 5 times).  Rate limiting
only sleeps, so it has no observable effect here. -/

/-- A JSON value, as far as the client observes it.  Numeric payloads
never influence control flow beyond Python truthiness, so `ℚ` suffices. -/
inductive Json where
  | obj : List (String × Json) → Json
  | arr : List Json → Json
  | str : String → Json
  | num : ℚ → Json
  | bool : Bool → Json
  | null : Json

/-- Python truthiness of a JSON value (`if cached_data:`). -/
def Json.truthy : Json → Bool
  | Json.obj l => !l.isEmpty
  | Json.arr l => !l.isEmpty
  | Json.str s => !s.isEmpty
  | Json.num q => decide (q ≠ 0)
  | Json.bool b => b
  | Json.null => false

/-- The client configuration (`__init__` fields with observable
effect).  The rate limit and base url never influence cache behaviour. -/
structure ApiClient where
  base_url : String
  rate_limit : Nat
  cache_dir : String

/-- Python `str.replace` specialised to a one-character pattern and a
one-character replacement: substitute every occurrence of the
character.  (For single-character arguments the general
substring-replacement semantics degenerates to exactly this map.) -/
def replace_char (pat repl : Char) (s : String) : String :=
  String.mk (s.data.map fun ch => if ch = pat then repl else ch)

/-- `PokemonApiClient._get_cache_path`: replace `/` and `?` by `_` in
the endpoint and join the result onto the cache directory with a
`.json` suffix. -/
def get_cache_path (c : ApiClient) (endpoint : String) : String :=
  let cacheKey := replace_char '?' '_' (replace_char '/' '_' endpoint)
  c.cache_dir ++ "/" ++ cacheKey ++ ".json"

/-- Read a cache file (`cache_path.exists()` + `json.load`). -/
def fs_read (fs : List (String × Json)) (path : String) : Option Json :=
  (fs.find? (fun e => e.1 == path)).map (fun e => e.2)

/-- Write (create or truncate) a cache file (`open(cache_path, 'w')`). -/
def fs_set (fs : List (String × Json)) (path : String) (content : Json) :
    List (String × Json) :=
  if fs.any (fun e => e.1 == path) then
    update_first (fun e => e.1 == path) (fun _ => (path, content)) fs
  else fs ++ [(path, content)]

/-- The outcome of a `get` call: the returned JSON or the propagated
exception, the file system afterwards, and instrumentation counters
(network requests issued, cache files read, cache files written). -/
structure GetOutcome where
  result : Except Unit Json
  fs : List (String × Json)
  net_calls : Nat
  cache_reads : Nat
  cache_writes : Nat

/-- One un-decorated run of the `PokemonApiClient.get` body.  `net` is
the response of this attempt's HTTP request (`Except.error` models
`raise_for_status` raising).  A cache hit with truthy content returns
it; a falsy or missing cached value falls through to the network. -/
def get_attempt (c : ApiClient) (fs : List (String × Json)) (net : Except Unit Json)
    (endpoint : String) (useCache : Bool) : GetOutcome :=
  let path := get_cache_path c endpoint
  let cached : Option Json := if useCache then fs_read fs path else none
  let reads : Nat := if useCache && (fs_read fs path).isSome then 1 else 0
  match cached with
  | some data =>
    if data.truthy then ⟨Except.ok data, fs, 0, reads, 0⟩
    else
      match net with
      | Except.error e => ⟨Except.error e, fs, 1, reads, 0⟩
      | Except.ok data => ⟨Except.ok data, fs_set fs path data, 1, reads, 1⟩
  | none =>
    match net with
    | Except.error e => ⟨Except.error e, fs, 1, reads, 0⟩
    | Except.ok data =>
      if useCache then ⟨Except.ok data, fs_set fs path data, 1, reads, 1⟩
      else ⟨Except.ok data, fs, 1, reads, 0⟩

/-- The `backoff.on_exception(..., max_tries=5)` loop around the `get`
body: re-run on exception while tries remain, accumulating the
instrumentation counters. -/
def get_retry (c : ApiClient) (net : Nat → Except Unit Json) (endpoint : String)
    (useCache : Bool) : List (String × Json) → Nat → Nat → GetOutcome
  | fs, k, 0 => get_attempt c fs (net k) endpoint useCache
  | fs, k, triesLeft + 1 =>
    let o := get_attempt c fs (net k) endpoint useCache
    match o.result with
    | Except.ok _ => o
    | Except.error _ =>
      let o2 := get_retry c net endpoint useCache o.fs (k + 1) triesLeft
      ⟨o2.result, o2.fs, o.net_calls + o2.net_calls,
        o.cache_reads + o2.cache_reads, o.cache_writes + o2.cache_writes⟩

/-- `PokemonApiClient.get` as observed by the caller: the body under
the `backoff` decorator with `max_tries=5` (4 retries after the first
attempt). -/
def client_get (c : ApiClient) (fs : List (String × Json)) (net : Nat → Except Unit Json)
    (endpoint : String) (useCache : Bool) : GetOutcome :=
  get_retry c net endpoint useCache fs 0 4

/-! ## PokemonTransformer move filtering
(src/transformation/pokemon_transformer.py) -/

/-- One entry of a raw move's `version_group_details` list. -/
structure VersionGroupDetail where
  version_group : String
  level_learned_at : Int
  move_learn_method : String
  deriving Repr, DecidableEq

/-- One entry of a raw Pokémon record's `moves` list. -/
structure MoveEntry where
  move_url : String
  version_group_details : List VersionGroupDetail
  deriving Repr, DecidableEq

/-- The fixed allow-list of game version groups. -/
def allowed_version_groups : List String := ["sword-shield", "sun-moon", "x-y"]

/-- `PokemonTransformer._extract_id_from_url`:
`int(url.rstrip('/').split('/')[-1])`.  The last element of the split
is the maximal suffix of the rstripped url containing no `/`, computed
charwise; `none` models `int()` raising on a non-numeric segment. -/
def extract_id_from_url (url : String) : Option Int :=
  let rstripped := (url.data.reverse.dropWhile fun ch => ch == '/').reverse
  let lastSegment := (rstripped.reverse.takeWhile fun ch => !(ch == '/')).reverse
  (String.mk lastSegment).toInt?

/-- The inner `for version_group_detail in ...: if ... : ...; break`
loop: the first detail whose version group is in the allow-list. -/
def first_allowed_detail : List VersionGroupDetail → Option VersionGroupDetail
  | [] => none
  | d :: rest =>
    if allowed_version_groups.contains d.version_group then some d
    else first_allowed_detail rest

/-- The move rows contributed by one raw move entry: `none` when the
url's id extraction raises, otherwise at most the one row built from
the first allow-listed version-group detail. -/
def moves_for_entry (pid : Int) (e : MoveEntry) : Option (List PokemonMoveRow) :=
  (extract_id_from_url e.move_url).map fun mid =>
    match first_allowed_detail e.version_group_details with
    | some d => [⟨pid, mid, d.level_learned_at, d.move_learn_method⟩]
    | none => []

/-- The `moves` list produced by `PokemonTransformer.transform_pokemon`
for a raw record with id `pid` and raw `moves` entries: the per-entry
contributions concatenated, the whole transform raising (`none`) if any
entry's id extraction raises. -/
def transform_moves (pid : Int) : List MoveEntry → Option (List PokemonMoveRow)
  | [] => some []
  | e :: rest => do
    let ms ← moves_for_entry pid e
    let rest2 ← transform_moves pid rest
    pure (ms ++ rest2)

/-! ## Statement abbreviations and concrete example inputs -/

/-- The upsert contract of one entity type, for natural-key predicate
`p`, table accessor `table` and load operation `load`: loading the same
transformed entity `d` twice is the same as loading it once, leaves
exactly one row for its natural key (holding `d`'s field values), and
leaves every row not matching the natural key untouched (nothing else
is created, deleted or modified). -/
def upsert_contract (p : α → Bool) (table : Store → List α) (load : Store → α → Store)
    (s : Store) (d : α) : Prop :=
  load (load s d) d = load s d ∧
  (table (load (load s d) d)).filter p = [d] ∧
  (table (load (load s d) d)).filter (fun x => !(p x)) = (table s).filter (fun x => !(p x))

/-- Example transformed Pokémon (the spec's pikachu example). -/
def ex_pokemon : PokemonRow := ⟨25, "pikachu", 4, 60, some 112, true, some 35⟩

/-- Example transformed stat row. -/
def ex_stat : PokemonStatRow := ⟨25, "hp", 35⟩

/-- Example transformed type row. -/
def ex_type : TypeRow := ⟨13, "electric"⟩

/-- Example transformed type-effectiveness row. -/
def ex_eff : TypeEffectivenessRow := ⟨13, 9, 2⟩

/-- Example transformed Pokémon-type association row. -/
def ex_ptype : PokemonTypeRow := ⟨25, 13, 1⟩

/-- Example transformed Pokémon-ability association row. -/
def ex_pability : PokemonAbilityRow := ⟨25, 9, false, 1⟩

/-- Example transformed Pokémon-move association row. -/
def ex_pmove : PokemonMoveRow := ⟨25, 84, 0, "machine"⟩

/-- A store whose `types` table has a type (`water`) that appears in no
`type_effectiveness` row at all. -/
def c2_store : Store :=
  { Store.empty with
    types := [⟨1, "fire"⟩, ⟨2, "water"⟩],
    type_effectiveness := [⟨1, 1, 2⟩] }

/-- A store whose pivoted matrix has labels `fire` and `water` on both
axes but no stored row for the ordered pair (`fire`, `water`). -/
def c2_amended_store : Store :=
  { Store.empty with
    types := [⟨1, "fire"⟩, ⟨2, "water"⟩],
    type_effectiveness := [⟨1, 1, 2⟩, ⟨2, 2, 2⟩] }

/-- A store with one dual-type Pokémon (fire/water, id 25) whose two
type names are both matrix columns and with `fire` a matrix row. -/
def c3_store : Store :=
  { Store.empty with
    pokemon := [ex_pokemon],
    types := [⟨1, "fire"⟩, ⟨2, "water"⟩],
    type_effectiveness := [⟨1, 1, 1⟩, ⟨1, 2, 1⟩],
    pokemon_types := [⟨25, 1, 1⟩, ⟨25, 2, 2⟩] }

/-- A store with one single-type Pokémon (grass, id 25) that is weak to
`fire` (stored multiplier 2). -/
def c5_store : Store :=
  { Store.empty with
    pokemon := [ex_pokemon],
    types := [⟨1, "fire"⟩, ⟨3, "grass"⟩],
    type_effectiveness := [⟨1, 3, 2⟩],
    pokemon_types := [⟨25, 3, 1⟩] }

/-- Example API client configuration. -/
def ex_client : ApiClient := ⟨"https://pokeapi.co/api/v2", 20, "cache"⟩

/-- A truthy JSON payload (a non-empty object). -/
def ex_truthy_json : Json := Json.obj [("id", Json.num 2)]

/-- A falsy JSON payload: the empty object, which Python treats as
false in an `if`. -/
def ex_falsy_json : Json := Json.obj []

/-- A raw move entry carried only by the allow-listed version group
`sword-shield` (the spec's example: machine move, level 0). -/
def ex_move_entry : MoveEntry :=
  ⟨"https://pokeapi.co/api/v2/move/84/", [⟨"sword-shield", 0, "machine"⟩]⟩

/-- A raw move entry carried only by a version group outside the
allow-list. -/
def ex_move_entry_unlisted : MoveEntry :=
  ⟨"https://pokeapi.co/api/v2/move/84/", [⟨"red-blue", 1, "level-up"⟩]⟩

/-! # Theorems

## Shared lemmas about the upsert shape -/

theorem countP_zero_filter {p : α → Bool} {l : List α} (h : l.countP p = 0) :
    l.filter p = [] := by
  rw [List.countP_eq_length_filter] at h
  exact List.length_eq_zero.mp h

theorem any_false_filter {p : α → Bool} {l : List α} (h : l.any p = false) :
    l.filter p = [] := by
  rw [List.filter_eq_nil_iff]
  exact fun a ha hpa => by simp [List.any_eq_true.mpr ⟨a, ha, hpa⟩] at h

theorem upsert_row_of_any {p : α → Bool} {f : α → α} {d : α} {l : List α}
    (h : l.any p = true) : upsert_row p f d l = update_first p f l := by
  simp [upsert_row, h]

theorem upsert_row_of_not_any {p : α → Bool} {f : α → α} {d : α} {l : List α}
    (h : l.any p = false) : upsert_row p f d l = l ++ [d] := by
  simp [upsert_row, h]

theorem upsert_row_filter_pos {p : α → Bool} {f : α → α} {d : α}
    (hd : p d = true) (hf : ∀ x, p x = true → f x = d) :
    ∀ l : List α, l.countP p ≤ 1 → (upsert_row p f d l).filter p = [d] := by
  intro l
  induction l with
  | nil => intro _; simp [upsert_row, hd]
  | cons x xs ih =>
    intro hc
    by_cases hx : p x = true
    · have hc0 : xs.countP p = 0 := by
        rw [List.countP_cons_of_pos p xs hx] at hc
        omega
      have hany : (x :: xs).any p = true := by simp [hx]
      rw [upsert_row_of_any hany]
      simp [update_first, hx, hf x hx, hd, countP_zero_filter hc0]
    · have hx' : p x = false := by simpa using hx
      have hc' : xs.countP p ≤ 1 := by
        rwa [List.countP_cons_of_neg p xs (by simp [hx'])] at hc
      cases haxs : xs.any p with
      | true =>
        have hany : (x :: xs).any p = true := by simp [haxs]
        have h2 : (update_first p f xs).filter p = [d] := by
          have := ih hc'
          rwa [upsert_row_of_any haxs] at this
        rw [upsert_row_of_any hany]
        simp [update_first, hx', h2]
      | false =>
        have hany : (x :: xs).any p = false := by simp [hx', haxs]
        rw [upsert_row_of_not_any hany]
        simp [List.filter_append, hx', any_false_filter haxs, hd]

theorem update_first_filter_neg {p : α → Bool} {f : α → α} {d : α}
    (hd : p d = true) (hf : ∀ x, p x = true → f x = d) :
    ∀ l : List α,
      (update_first p f l).filter (fun x => !(p x)) = l.filter (fun x => !(p x)) := by
  intro l
  induction l with
  | nil => rfl
  | cons x xs ih =>
    by_cases hx : p x = true
    · have hfx : p (f x) = true := by rw [hf x hx]; exact hd
      simp [update_first, hx, hfx]
    · have hx' : p x = false := by simpa using hx
      simp [update_first, hx', ih]

theorem upsert_row_filter_neg {p : α → Bool} {f : α → α} {d : α}
    (hd : p d = true) (hf : ∀ x, p x = true → f x = d) (l : List α) :
    (upsert_row p f d l).filter (fun x => !(p x)) = l.filter (fun x => !(p x)) := by
  cases hany : l.any p with
  | true => rw [upsert_row_of_any hany]; exact update_first_filter_neg hd hf l
  | false => rw [upsert_row_of_not_any hany]; simp [List.filter_append, hd]

theorem upsert_row_countP_le {p : α → Bool} {f : α → α} {d : α}
    (hd : p d = true) (hf : ∀ x, p x = true → f x = d)
    (l : List α) (hc : l.countP p ≤ 1) : (upsert_row p f d l).countP p ≤ 1 := by
  rw [List.countP_eq_length_filter, upsert_row_filter_pos hd hf l hc]
  simp

theorem update_first_eq_self {p : α → Bool} {f : α → α} {d : α} (hfd : f d = d) :
    ∀ l : List α, l.filter p = [d] → update_first p f l = l := by
  intro l
  induction l with
  | nil => intro _; rfl
  | cons x xs ih =>
    intro h
    by_cases hx : p x = true
    · rw [List.filter_cons_of_pos hx] at h
      have hxd : x = d := (List.cons_eq_cons.mp h).1
      subst hxd
      simp [update_first, hx, hfd]
    · have hx' : p x = false := by simpa using hx
      rw [List.filter_cons_of_neg (by simp [hx'])] at h
      simp [update_first, hx', ih h]

theorem upsert_row_idem {p : α → Bool} {f : α → α} {d : α}
    (hd : p d = true) (hf : ∀ x, p x = true → f x = d)
    (l : List α) (hc : l.countP p ≤ 1) :
    upsert_row p f d (upsert_row p f d l) = upsert_row p f d l := by
  have hpos := upsert_row_filter_pos hd hf l hc
  have hdmem : d ∈ upsert_row p f d l :=
    List.mem_of_mem_filter (by rw [hpos]; exact List.mem_singleton.mpr rfl)
  have hany : (upsert_row p f d l).any p = true := List.any_eq_true.mpr ⟨d, hdmem, hd⟩
  rw [upsert_row_of_any hany]
  exact update_first_eq_self (hf d hd) _ hpos

/-- The full single-entity upsert contract follows from the three
generic lemmas above. -/
theorem upsert_contract_of_key {p : α → Bool} {f : α → α} {d : α}
    (hd : p d = true) (hf : ∀ x, p x = true → f x = d)
    (l : List α) (hc : l.countP p ≤ 1) :
    upsert_row p f d (upsert_row p f d l) = upsert_row p f d l ∧
    (upsert_row p f d (upsert_row p f d l)).filter p = [d] ∧
    (upsert_row p f d (upsert_row p f d l)).filter (fun x => !(p x)) =
      l.filter (fun x => !(p x)) := by
  refine ⟨upsert_row_idem hd hf l hc, ?_, ?_⟩
  · exact upsert_row_filter_pos hd hf _ (upsert_row_countP_le hd hf l hc)
  · rw [upsert_row_filter_neg hd hf, upsert_row_filter_neg hd hf]

/-! ## C1 — upsert idempotence for every entity type -/

/-- C1.  Upsert idempotence: for every entity type (Pokémon, stat,
type, type-effectiveness, type/ability/move association), loading the
same transformed entity twice through the corresponding
`DatabaseLoader` load method leaves exactly one row for its natural
key, with the (second) load's field values overwriting the first's,
leaves every other row untouched (never duplicated or deleted), and
the second load changes nothing at all.  The hypothesis on each part
is the store's natural-key uniqueness invariant (at most one existing
row per natural key), which every load method preserves. -/
theorem upsert_idempotence :
    (∀ (s : Store) (d : PokemonRow),
      s.pokemon.countP (fun x => x.id == d.id) ≤ 1 →
      upsert_contract (fun x => x.id == d.id) Store.pokemon load_pokemon s d) ∧
    (∀ (s : Store) (d : PokemonStatRow),
      s.pokemon_stats.countP
        (fun x => x.pokemon_id == d.pokemon_id && x.stat_name == d.stat_name) ≤ 1 →
      upsert_contract (fun x => x.pokemon_id == d.pokemon_id && x.stat_name == d.stat_name)
        Store.pokemon_stats (fun st x => load_pokemon_stats st [x]) s d) ∧
    (∀ (s : Store) (d : TypeRow),
      s.types.countP (fun x => x.id == d.id) ≤ 1 →
      upsert_contract (fun x => x.id == d.id)
        Store.types (fun st x => load_types st [x]) s d) ∧
    (∀ (s : Store) (d : TypeEffectivenessRow),
      s.type_effectiveness.countP
        (fun x => x.attack_type_id == d.attack_type_id &&
          x.defense_type_id == d.defense_type_id) ≤ 1 →
      upsert_contract
        (fun x => x.attack_type_id == d.attack_type_id &&
          x.defense_type_id == d.defense_type_id)
        Store.type_effectiveness (fun st x => load_type_effectiveness st [x]) s d) ∧
    (∀ (s : Store) (d : PokemonTypeRow),
      s.pokemon_types.countP (fun x => x.pokemon_id == d.pokemon_id && x.type_id == d.type_id) ≤ 1 →
      upsert_contract (fun x => x.pokemon_id == d.pokemon_id && x.type_id == d.type_id)
        Store.pokemon_types (fun st x => load_pokemon_types st [x]) s d) ∧
    (∀ (s : Store) (d : PokemonAbilityRow),
      s.pokemon_abilities.countP
        (fun x => x.pokemon_id == d.pokemon_id && x.ability_id == d.ability_id) ≤ 1 →
      upsert_contract (fun x => x.pokemon_id == d.pokemon_id && x.ability_id == d.ability_id)
        Store.pokemon_abilities load_pokemon_ability s d) ∧
    (∀ (s : Store) (d : PokemonMoveRow),
      s.pokemon_moves.countP
        (fun x => x.pokemon_id == d.pokemon_id && x.move_id == d.move_id &&
          x.learn_method == d.learn_method) ≤ 1 →
      upsert_contract
        (fun x => x.pokemon_id == d.pokemon_id && x.move_id == d.move_id &&
          x.learn_method == d.learn_method)
        Store.pokemon_moves load_pokemon_move s d) := by
  refine ⟨?_, ?_, ?_, ?_, ?_, ?_, ?_⟩
  · intro s d hc
    have hd : (d.id == d.id) = true := by simp
    obtain ⟨h1, h2, h3⟩ :=
      upsert_contract_of_key (f := fun _ => d) hd (fun _ _ => rfl) s.pokemon hc
    exact ⟨by simp [load_pokemon, h1],
           by simpa [load_pokemon] using h2,
           by simpa [load_pokemon] using h3⟩
  · intro s d hc
    have hd : (d.pokemon_id == d.pokemon_id && d.stat_name == d.stat_name) = true := by simp
    have hf : ∀ x : PokemonStatRow,
        (x.pokemon_id == d.pokemon_id && x.stat_name == d.stat_name) = true →
        { x with base_value := d.base_value } = d := by
      intro x hx
      simp only [Bool.and_eq_true, beq_iff_eq] at hx
      cases x; cases d; simp_all
    obtain ⟨h1, h2, h3⟩ :=
      upsert_contract_of_key
        (p := fun x => x.pokemon_id == d.pokemon_id && x.stat_name == d.stat_name)
        (f := fun x => { x with base_value := d.base_value }) hd hf s.pokemon_stats hc
    exact ⟨by simp [load_pokemon_stats, upsert_pokemon_stat, h1],
           by simpa [load_pokemon_stats, upsert_pokemon_stat] using h2,
           by simpa [load_pokemon_stats, upsert_pokemon_stat] using h3⟩
  · intro s d hc
    have hd : (d.id == d.id) = true := by simp
    have hf : ∀ x : TypeRow, (x.id == d.id) = true → { x with name := d.name } = d := by
      intro x hx
      simp only [beq_iff_eq] at hx
      cases x; cases d; simp_all
    obtain ⟨h1, h2, h3⟩ :=
      upsert_contract_of_key (p := fun x => x.id == d.id)
        (f := fun x => { x with name := d.name }) hd hf s.types hc
    exact ⟨by simp [load_types, upsert_type, h1],
           by simpa [load_types, upsert_type] using h2,
           by simpa [load_types, upsert_type] using h3⟩
  · intro s d hc
    have hd : (d.attack_type_id == d.attack_type_id &&
        d.defense_type_id == d.defense_type_id) = true := by simp
    have hf : ∀ x : TypeEffectivenessRow,
        (x.attack_type_id == d.attack_type_id && x.defense_type_id == d.defense_type_id) = true →
        { x with effectiveness := d.effectiveness } = d := by
      intro x hx
      simp only [Bool.and_eq_true, beq_iff_eq] at hx
      cases x; cases d; simp_all
    obtain ⟨h1, h2, h3⟩ :=
      upsert_contract_of_key
        (p := fun x => x.attack_type_id == d.attack_type_id &&
          x.defense_type_id == d.defense_type_id)
        (f := fun x => { x with effectiveness := d.effectiveness }) hd hf s.type_effectiveness hc
    exact ⟨by simp [load_type_effectiveness, upsert_type_effectiveness, h1],
           by simpa [load_type_effectiveness, upsert_type_effectiveness] using h2,
           by simpa [load_type_effectiveness, upsert_type_effectiveness] using h3⟩
  · intro s d hc
    have hd : (d.pokemon_id == d.pokemon_id && d.type_id == d.type_id) = true := by simp
    have hf : ∀ x : PokemonTypeRow,
        (x.pokemon_id == d.pokemon_id && x.type_id == d.type_id) = true →
        { x with slot := d.slot } = d := by
      intro x hx
      simp only [Bool.and_eq_true, beq_iff_eq] at hx
      cases x; cases d; simp_all
    obtain ⟨h1, h2, h3⟩ :=
      upsert_contract_of_key
        (p := fun x => x.pokemon_id == d.pokemon_id && x.type_id == d.type_id)
        (f := fun x => { x with slot := d.slot }) hd hf s.pokemon_types hc
    exact ⟨by simp [load_pokemon_types, upsert_pokemon_type, h1],
           by simpa [load_pokemon_types, upsert_pokemon_type] using h2,
           by simpa [load_pokemon_types, upsert_pokemon_type] using h3⟩
  · intro s d hc
    have hd : (d.pokemon_id == d.pokemon_id && d.ability_id == d.ability_id) = true := by simp
    have hf : ∀ x : PokemonAbilityRow,
        (x.pokemon_id == d.pokemon_id && x.ability_id == d.ability_id) = true →
        { x with is_hidden := d.is_hidden, slot := d.slot } = d := by
      intro x hx
      simp only [Bool.and_eq_true, beq_iff_eq] at hx
      cases x; cases d; simp_all
    obtain ⟨h1, h2, h3⟩ :=
      upsert_contract_of_key
        (p := fun x => x.pokemon_id == d.pokemon_id && x.ability_id == d.ability_id)
        (f := fun x => { x with is_hidden := d.is_hidden, slot := d.slot }) hd hf
        s.pokemon_abilities hc
    exact ⟨by simp [load_pokemon_ability, h1],
           by simpa [load_pokemon_ability] using h2,
           by simpa [load_pokemon_ability] using h3⟩
  · intro s d hc
    have hd : (d.pokemon_id == d.pokemon_id && d.move_id == d.move_id &&
        d.learn_method == d.learn_method) = true := by simp
    have hf : ∀ x : PokemonMoveRow,
        (x.pokemon_id == d.pokemon_id && x.move_id == d.move_id &&
          x.learn_method == d.learn_method) = true →
        { x with level_learned_at := d.level_learned_at } = d := by
      intro x hx
      simp only [Bool.and_eq_true, beq_iff_eq] at hx
      cases x; cases d; simp_all
    obtain ⟨h1, h2, h3⟩ :=
      upsert_contract_of_key
        (p := fun x => x.pokemon_id == d.pokemon_id && x.move_id == d.move_id &&
          x.learn_method == d.learn_method)
        (f := fun x => { x with level_learned_at := d.level_learned_at }) hd hf
        s.pokemon_moves hc
    exact ⟨by simp [load_pokemon_move, h1],
           by simpa [load_pokemon_move] using h2,
           by simpa [load_pokemon_move] using h3⟩

/-- Witness for C1: the upsert contract applied to concrete
transformed entities over the empty store, one instance per entity
type, with every natural-key uniqueness hypothesis discharged by
computation. -/
theorem upsert_idempotence_witness :
    upsert_contract (fun x => x.id == ex_pokemon.id) Store.pokemon load_pokemon
      Store.empty ex_pokemon ∧
    upsert_contract
      (fun x => x.pokemon_id == ex_stat.pokemon_id && x.stat_name == ex_stat.stat_name)
      Store.pokemon_stats (fun st x => load_pokemon_stats st [x]) Store.empty ex_stat ∧
    upsert_contract (fun x => x.id == ex_type.id)
      Store.types (fun st x => load_types st [x]) Store.empty ex_type ∧
    upsert_contract
      (fun x => x.attack_type_id == ex_eff.attack_type_id &&
        x.defense_type_id == ex_eff.defense_type_id)
      Store.type_effectiveness (fun st x => load_type_effectiveness st [x]) Store.empty ex_eff ∧
    upsert_contract (fun x => x.pokemon_id == ex_ptype.pokemon_id && x.type_id == ex_ptype.type_id)
      Store.pokemon_types (fun st x => load_pokemon_types st [x]) Store.empty ex_ptype ∧
    upsert_contract
      (fun x => x.pokemon_id == ex_pability.pokemon_id && x.ability_id == ex_pability.ability_id)
      Store.pokemon_abilities load_pokemon_ability Store.empty ex_pability ∧
    upsert_contract
      (fun x => x.pokemon_id == ex_pmove.pokemon_id && x.move_id == ex_pmove.move_id &&
        x.learn_method == ex_pmove.learn_method)
      Store.pokemon_moves load_pokemon_move Store.empty ex_pmove :=
  ⟨upsert_idempotence.1 Store.empty ex_pokemon (by decide),
   upsert_idempotence.2.1 Store.empty ex_stat (by decide),
   upsert_idempotence.2.2.1 Store.empty ex_type (by decide),
   upsert_idempotence.2.2.2.1 Store.empty ex_eff (by decide),
   upsert_idempotence.2.2.2.2.1 Store.empty ex_ptype (by decide),
   upsert_idempotence.2.2.2.2.2.1 Store.empty ex_pability (by decide),
   upsert_idempotence.2.2.2.2.2.2 Store.empty ex_pmove (by decide)⟩

/-! ## C7 — per-write transaction atomicity -/

theorem run_loop_ok_eq {step : Store → α → Store} {throwAt : Nat → Bool} :
    ∀ (data : List α) (st : Store) (i : Nat) (st2 : Store),
      run_loop step throwAt st data i = Except.ok st2 → st2 = data.foldl step st := by
  intro data
  induction data with
  | nil => intro st i st2 h; simpa [run_loop] using h.symm
  | cons d rest ih =>
    intro st i st2 h
    by_cases ht : throwAt i = true
    · simp [run_loop, ht] at h
    · have ht' : throwAt i = false := by simpa using ht
      rw [run_loop, ht'] at h
      simpa using ih (step st d) (i + 1) st2 h

theorem run_loop_isOk_iff {step : Store → α → Store} {throwAt : Nat → Bool} :
    ∀ (data : List α) (st : Store) (i : Nat),
      (∃ st2, run_loop step throwAt st data i = Except.ok st2) ↔
        ∀ j, j < data.length → throwAt (i + j) = false := by
  intro data
  induction data with
  | nil => intro st i; simp [run_loop]
  | cons d rest ih =>
    intro st i
    by_cases ht : throwAt i = true
    · simp only [run_loop, ht, if_true]
      constructor
      · rintro ⟨st2, h⟩; cases h
      · intro h
        have := h 0 (by simp)
        simp [ht] at this
    · have ht' : throwAt i = false := by simpa using ht
      rw [run_loop, ht']
      rw [if_neg (by simp)]
      rw [ih (step st d) (i + 1)]
      constructor
      · intro h j hj
        cases j with
        | zero => simpa using ht'
        | succ k =>
          have := h k (by simpa using Nat.lt_of_succ_lt_succ hj)
          simpa [Nat.add_assoc, Nat.add_comm 1 k] using this
      · intro h j hj
        have := h (j + 1) (by simpa using Nat.succ_lt_succ hj)
        simpa [Nat.add_assoc, Nat.add_comm j 1] using this

/-- Generic transactional specification shared by the write methods:
from a clean session, an exception leaves the committed store exactly
as it was (rollback) and is re-raised; success commits exactly the
fold of the upsert steps; and the call succeeds precisely when no
exception was injected. -/
theorem load_in_tx_spec (step : Store → α → Store) (s : Store) (data : List α)
    (throwAt : Nat → Bool) (commitFails : Bool) :
    (∀ e, (load_in_tx step (Session.clean s) data throwAt commitFails).1 = Except.error e →
      (load_in_tx step (Session.clean s) data throwAt commitFails).2 = Session.clean s) ∧
    ((load_in_tx step (Session.clean s) data throwAt commitFails).1 = Except.ok () →
      (load_in_tx step (Session.clean s) data throwAt commitFails).2 =
        Session.clean (data.foldl step s)) ∧
    ((load_in_tx step (Session.clean s) data throwAt commitFails).1 = Except.ok () ↔
      (commitFails = false ∧ ∀ j, j < data.length → throwAt j = false)) := by
  cases hrun : run_loop step throwAt s data 0 with
  | error e =>
    have hres : load_in_tx step (Session.clean s) data throwAt commitFails =
        (Except.error e, Session.clean s) := by
      simp [load_in_tx, Session.clean, Session.rollback, hrun]
    refine ⟨fun e2 _ => by rw [hres], fun h => by simp [hres] at h, ?_⟩
    constructor
    · intro h
      simp [hres] at h
    · rintro ⟨_, hall⟩
      obtain ⟨st2, h⟩ := (run_loop_isOk_iff data s 0).mpr (by simpa using hall)
      rw [hrun] at h
      cases h
  | ok pend =>
    have hpend : pend = data.foldl step s := run_loop_ok_eq data s 0 pend hrun
    cases commitFails with
    | true =>
      have hres : load_in_tx step (Session.clean s) data throwAt true =
          (Except.error LoadError.commitFailed, Session.clean s) := by
        simp [load_in_tx, Session.clean, Session.rollback, hrun]
      refine ⟨fun e2 _ => by rw [hres], fun h => by simp [hres] at h, ?_⟩
      constructor
      · intro h
        simp [hres] at h
      · rintro ⟨h, _⟩
        cases h
    | false =>
      have hres : load_in_tx step (Session.clean s) data throwAt false =
          (Except.ok (), Session.clean (data.foldl step s)) := by
        simp [load_in_tx, Session.clean, Session.commitOk, hrun, hpend]
      refine ⟨fun e2 h => by simp [hres] at h, fun _ => by rw [hres], ?_⟩
      constructor
      · intro _
        refine ⟨rfl, ?_⟩
        have hok : ∃ st2, run_loop step throwAt s data 0 = Except.ok st2 := ⟨pend, hrun⟩
        intro j hj
        simpa using (run_loop_isOk_iff data s 0).mp hok j hj
      · intro _
        rw [hres]

/-- C7.  Per-write atomicity on error: for both cited write methods
(`load_types`, `load_type_effectiveness`) and every input, an
exception raised anywhere in the unit of work (any loop iteration, or
the final commit) rolls the transaction back — the committed store is
exactly what it was before the call — and the exception is re-raised
to the caller; on success the unit of work is committed (the fold of
the per-row upserts), and the call succeeds iff no exception occurred. -/
theorem load_tx_atomicity :
    (∀ (s : Store) (data : List TypeRow) (throwAt : Nat → Bool) (commitFails : Bool),
      (∀ e, (load_types_tx (Session.clean s) data throwAt commitFails).1 = Except.error e →
        (load_types_tx (Session.clean s) data throwAt commitFails).2 = Session.clean s) ∧
      ((load_types_tx (Session.clean s) data throwAt commitFails).1 = Except.ok () →
        (load_types_tx (Session.clean s) data throwAt commitFails).2 =
          Session.clean (load_types s data)) ∧
      ((load_types_tx (Session.clean s) data throwAt commitFails).1 = Except.ok () ↔
        (commitFails = false ∧ ∀ j, j < data.length → throwAt j = false))) ∧
    (∀ (s : Store) (data : List TypeEffectivenessRow) (throwAt : Nat → Bool) (commitFails : Bool),
      (∀ e, (load_type_effectiveness_tx (Session.clean s) data throwAt commitFails).1 =
          Except.error e →
        (load_type_effectiveness_tx (Session.clean s) data throwAt commitFails).2 =
          Session.clean s) ∧
      ((load_type_effectiveness_tx (Session.clean s) data throwAt commitFails).1 =
          Except.ok () →
        (load_type_effectiveness_tx (Session.clean s) data throwAt commitFails).2 =
          Session.clean (load_type_effectiveness s data)) ∧
      ((load_type_effectiveness_tx (Session.clean s) data throwAt commitFails).1 =
          Except.ok () ↔
        (commitFails = false ∧ ∀ j, j < data.length → throwAt j = false))) :=
  ⟨fun s data throwAt commitFails => load_in_tx_spec upsert_type s data throwAt commitFails,
   fun s data throwAt commitFails =>
     load_in_tx_spec upsert_type_effectiveness s data throwAt commitFails⟩

/-- Witness for C7: concrete runs of `load_types` in a transaction —
an exception at the first loop iteration leaves the committed store
untouched and surfaces as an error, and an exception-free run commits
the upserted type. -/
theorem load_tx_atomicity_witness :
    (load_types_tx (Session.clean Store.empty) [ex_type] (fun _ => true) false).2 =
      Session.clean Store.empty ∧
    (load_types_tx (Session.clean Store.empty) [ex_type] (fun _ => false) false).2 =
      Session.clean (load_types Store.empty [ex_type]) ∧
    (load_type_effectiveness_tx (Session.clean Store.empty) [ex_eff] (fun _ => false) true).2 =
      Session.clean Store.empty :=
  ⟨(load_tx_atomicity.1 Store.empty [ex_type] (fun _ => true) false).1
      (LoadError.row 0) rfl,
   (load_tx_atomicity.1 Store.empty [ex_type] (fun _ => false) false).2.1 rfl,
   (load_tx_atomicity.2 Store.empty [ex_eff] (fun _ => false) true).1
      LoadError.commitFailed rfl⟩

/-! ## C2 — effectiveness matrix completeness (corrected) -/

theorem matrix_entry_default (s : Store) (a d : String)
    (h : ∀ r ∈ flat_effectiveness_rows s, ¬(r.1 = a ∧ r.2.1 = d)) :
    matrix_entry s a d = 1 := by
  have hn : (flat_effectiveness_rows s).find? (fun r => r.1 == a && r.2.1 == d) = none := by
    apply List.find?_eq_none.mpr
    intro r hr
    simpa [Bool.and_eq_true, beq_iff_eq] using h r hr
  simp [matrix_entry, hn]

/-- C2 counterexample: in `c2_store` the `types` table holds `fire`
and `water`, but the pivoted matrix (built only from stored
effectiveness rows) has no cell for the ordered pair
(`fire`, `water`): `water` appears in no stored row, so it is not a
matrix column at all.  The claim's quantifier "every ordered pair of
types in the types table" therefore fails. -/
theorem effectiveness_matrix_completeness_cex :
    (⟨1, "fire"⟩ : TypeRow) ∈ c2_store.types ∧
    (⟨2, "water"⟩ : TypeRow) ∈ c2_store.types ∧
    ¬ matrix_has_entry c2_store "fire" "water" := by
  refine ⟨by decide, by decide, ?_⟩
  intro h
  exact absurd h.2 (by decide)

/-- C2 amended: the matrix contains an entry for every ordered pair
(`a`, `d`) where `a` occurs as the attacking type and `d` as the
defending type of some stored (type-resolvable) effectiveness row, and
for every such pair that has no stored `type_effectiveness` row the
reported value is `1.0`. -/
theorem effectiveness_matrix_completeness_amended (s : Store) (a d : String)
    (ha : a ∈ matrix_index s) (hd : d ∈ matrix_columns s)
    (hnone : ∀ r ∈ flat_effectiveness_rows s, ¬(r.1 = a ∧ r.2.1 = d)) :
    matrix_has_entry s a d ∧ matrix_entry s a d = 1 :=
  ⟨⟨ha, hd⟩, matrix_entry_default s a d hnone⟩

/-- Witness for C2 amended: in `c2_amended_store` both `fire` and
`water` label both axes, the pair (`fire`, `water`) has no stored row,
and the matrix reports the neutral multiplier `1.0` for it. -/
theorem effectiveness_matrix_completeness_amended_witness :
    matrix_has_entry c2_amended_store "fire" "water" ∧
    matrix_entry c2_amended_store "fire" "water" = 1 :=
  effectiveness_matrix_completeness_amended c2_amended_store "fire" "water"
    (by decide) (by decide) (by decide)

/-! ## C10 — typeless Pokémon returns empty results, no exception -/

/-- C10.  For every Pokémon id with no stored type associations,
`get_pokemon_weakness_profile` returns the empty result (instead of
raising), and `recommend_counter_types` likewise returns the empty
result for every `top_n`. -/
theorem typeless_pokemon_empty_results (s : Store) (pid : Int) (top_n : Nat)
    (h : s.pokemon_types.filter (fun pt => pt.pokemon_id == pid) = []) :
    get_pokemon_weakness_profile s pid = some [] ∧
    recommend_counter_types s pid top_n = some [] := by
  have hnames : pokemon_type_names s pid = [] := by
    simp [pokemon_type_names, h, sort_by_slot, sort_with]
  have hprof : get_pokemon_weakness_profile s pid = some [] := by
    simp [get_pokemon_weakness_profile, hnames]
  exact ⟨hprof, by simp [recommend_counter_types, hprof]⟩

/-- Witness for C10: a store with types and effectiveness data but no
type association for Pokémon 25 (whose row is even absent from the
`pokemon` table, so the skipped name query would indeed have raised). -/
theorem typeless_pokemon_empty_results_witness :
    get_pokemon_weakness_profile c2_store 25 = some [] ∧
    recommend_counter_types c2_store 25 5 = some [] :=
  typeless_pokemon_empty_results c2_store 25 5 (by decide)

/-! ## Sorting lemmas shared by C3 and C5 -/

theorem insert_sorted_perm (before : α → α → Bool) (x : α) :
    ∀ l : List α, List.Perm (insert_sorted before x l) (x :: l) := by
  intro l
  induction l with
  | nil => exact List.Perm.refl _
  | cons y ys ih =>
    simp only [insert_sorted]
    by_cases hyx : before y x = true
    · rw [if_pos hyx]
      exact ((ih.cons y).trans (List.Perm.swap x y ys))
    · rw [if_neg hyx]

theorem sort_with_perm (before : α → α → Bool) :
    ∀ l : List α, List.Perm (sort_with before l) l := by
  intro l
  induction l with
  | nil => exact List.Perm.refl _
  | cons x xs ih =>
    exact (insert_sorted_perm before x (sort_with before xs)).trans (ih.cons x)

theorem insert_sorted_chain {R : α → α → Bool}
    (htot : ∀ a b, R a b = false → R b a = true) (x : α) :
    ∀ l, List.Chain' (fun a b => R a b = true) l →
      List.Chain' (fun a b => R a b = true) (insert_sorted R x l) := by
  intro l
  induction l with
  | nil => intro _; simp [insert_sorted]
  | cons y ys ih =>
    intro hch
    simp only [insert_sorted]
    by_cases hyx : R y x = true
    · rw [if_pos hyx]
      have hins := ih hch.tail
      cases ys with
      | nil => simpa [insert_sorted] using hyx
      | cons z zs =>
        by_cases hzx : R z x = true
        · simp only [insert_sorted, if_pos hzx] at hins ⊢
          exact List.chain'_cons.mpr ⟨(List.chain'_cons.mp hch).1, hins⟩
        · simp only [insert_sorted, if_neg hzx] at hins ⊢
          exact List.chain'_cons.mpr ⟨hyx, hins⟩
    · rw [if_neg hyx]
      exact List.chain'_cons.mpr ⟨htot y x (by simpa using hyx), hch⟩

theorem sort_with_chain {R : α → α → Bool}
    (htot : ∀ a b, R a b = false → R b a = true) :
    ∀ l : List α, List.Chain' (fun a b => R a b = true) (sort_with R l) := by
  intro l
  induction l with
  | nil => simp [sort_with]
  | cons x xs ih => exact insert_sorted_chain htot x (sort_with R xs) ih

/-! ## C3 — weakness-profile multiplicativity -/

theorem filter_fst_map_not_mem (g : String → ℚ) (X : String) :
    ∀ idx : List String, X ∉ idx →
      (idx.map (fun a => (a, g a))).filter (fun r => r.1 == X) = [] := by
  intro idx
  induction idx with
  | nil => intro _; rfl
  | cons a rest ih =>
    intro h
    have ha : a ≠ X := fun hax => h (hax ▸ List.mem_cons_self a rest)
    have hrest : X ∉ rest := fun hr => h (List.mem_cons_of_mem a hr)
    simp only [List.map_cons, List.filter_cons]
    rw [if_neg (by simpa using ha)]
    exact ih hrest

theorem filter_fst_map (g : String → ℚ) (X : String) :
    ∀ idx : List String, idx.Nodup → X ∈ idx →
      (idx.map (fun a => (a, g a))).filter (fun r => r.1 == X) = [(X, g X)] := by
  intro idx
  induction idx with
  | nil => intro _ hX; cases hX
  | cons a rest ih =>
    intro hn hX
    by_cases hax : a = X
    · subst hax
      have hrest : a ∉ rest := (List.nodup_cons.mp hn).1
      simp only [List.map_cons, List.filter_cons]
      rw [if_pos (by simp)]
      rw [filter_fst_map_not_mem g a rest hrest]
    · have hXrest : X ∈ rest := by
        cases List.mem_cons.mp hX with
        | inl h => exact absurd h.symm hax
        | inr h => exact h
      simp only [List.map_cons, List.filter_cons]
      rw [if_neg (by simpa using hax)]
      exact ih (List.nodup_cons.mp hn).2 hXrest

theorem mem_contains_true {l : List String} {a : String} (h : a ∈ l) :
    l.contains a = true := by
  simpa using h

theorem combined_effectiveness_pair (s : Store) (A B X : String)
    (hA : A ∈ matrix_columns s) (hB : B ∈ matrix_columns s) :
    combined_effectiveness s [A, B] X = matrix_entry s X A * matrix_entry s X B := by
  simp only [combined_effectiveness, List.foldl_cons, List.foldl_nil,
    mem_contains_true hA, mem_contains_true hB, if_true, one_mul]

theorem combined_effectiveness_single (s : Store) (A X : String)
    (hA : A ∈ matrix_columns s) :
    combined_effectiveness s [A] X = matrix_entry s X A := by
  simp only [combined_effectiveness, List.foldl_cons, List.foldl_nil,
    mem_contains_true hA, if_true, one_mul]

theorem profile_filter_eq (s : Store) (pid : Int) (X : String) (df : List (String × ℚ))
    (hne : pokemon_type_names s pid ≠ [])
    (hX : X ∈ matrix_index s)
    (hdf : get_pokemon_weakness_profile s pid = some df) :
    df.filter (fun r => r.1 == X) =
      [(X, combined_effectiveness s (pokemon_type_names s pid) X)] := by
  have hempty : (pokemon_type_names s pid).isEmpty = false := by
    cases h : pokemon_type_names s pid with
    | nil => exact absurd h hne
    | cons a l => rfl
  rw [get_pokemon_weakness_profile] at hdf
  rw [hempty] at hdf
  simp only [Bool.false_eq_true, if_false] at hdf
  cases hfind : s.pokemon.find? (fun p => p.id == pid) with
  | none => rw [hfind] at hdf; cases hdf
  | some pk =>
    rw [hfind] at hdf
    have hdf2 : df = sort_desc ((matrix_index s).map
        (fun atk => (atk, combined_effectiveness s (pokemon_type_names s pid) atk))) := by
      cases hdf; rfl
    subst hdf2
    have hperm :
        List.Perm
          ((sort_desc ((matrix_index s).map
            (fun atk => (atk, combined_effectiveness s (pokemon_type_names s pid) atk)))).filter
              (fun r => r.1 == X))
          (((matrix_index s).map
            (fun atk => (atk, combined_effectiveness s (pokemon_type_names s pid) atk))).filter
              (fun r => r.1 == X)) :=
      (sort_with_perm _ _).filter _
    rw [filter_fst_map (fun atk => combined_effectiveness s (pokemon_type_names s pid) atk) X
      (matrix_index s) (List.nodup_dedup _) hX] at hperm
    exact List.perm_singleton.mp hperm

/-- C3.  Weakness-profile multiplicativity: for a Pokémon whose stored
type associations resolve to exactly the two type names `A` and `B`
(both matrix columns), the weakness profile reports, for every
attacking type `X` of the matrix, exactly the product
`matrix[X][A] * matrix[X][B]`; for a single-type Pokémon it reports
exactly the single entry `matrix[X][A]`. -/
theorem weakness_profile_multiplicative :
    (∀ (s : Store) (pid : Int) (A B X : String) (df : List (String × ℚ)),
      pokemon_type_names s pid = [A, B] →
      X ∈ matrix_index s → A ∈ matrix_columns s → B ∈ matrix_columns s →
      get_pokemon_weakness_profile s pid = some df →
      df.filter (fun r => r.1 == X) =
        [(X, matrix_entry s X A * matrix_entry s X B)]) ∧
    (∀ (s : Store) (pid : Int) (A X : String) (df : List (String × ℚ)),
      pokemon_type_names s pid = [A] →
      X ∈ matrix_index s → A ∈ matrix_columns s →
      get_pokemon_weakness_profile s pid = some df →
      df.filter (fun r => r.1 == X) = [(X, matrix_entry s X A)]) := by
  constructor
  · intro s pid A B X df hnames hX hA hB hdf
    have h := profile_filter_eq s pid X df (by rw [hnames]; simp) hX hdf
    rw [hnames, combined_effectiveness_pair s A B X hA hB] at h
    exact h
  · intro s pid A X df hnames hX hA hdf
    have h := profile_filter_eq s pid X df (by rw [hnames]; simp) hX hdf
    rw [hnames, combined_effectiveness_single s A X hA] at h
    exact h

/-- Witness for C3: in `c3_store`, Pokémon 25 is fire/water and the
profile row for attacking type `fire` is the product of the two matrix
entries. -/
theorem weakness_profile_multiplicative_witness :
    ([("fire", combined_effectiveness c3_store (pokemon_type_names c3_store 25) "fire")].filter
        (fun r => r.1 == "fire")) =
      [("fire", matrix_entry c3_store "fire" "fire" * matrix_entry c3_store "fire" "water")] :=
  weakness_profile_multiplicative.1 c3_store 25 "fire" "water" "fire"
    [("fire", combined_effectiveness c3_store (pokemon_type_names c3_store 25) "fire")]
    (by decide) (by decide) (by decide) (by decide) rfl

/-! ## C5 — counter recommendation -/

theorem profile_shape (s : Store) (pid : Int) (df : List (String × ℚ))
    (hdf : get_pokemon_weakness_profile s pid = some df) (hne : df ≠ []) :
    ∃ pk, s.pokemon.find? (fun p => p.id == pid) = some pk := by
  have hempty : (pokemon_type_names s pid).isEmpty = false := by
    cases h : pokemon_type_names s pid with
    | nil =>
      exfalso
      rw [get_pokemon_weakness_profile, h] at hdf
      simp only [List.isEmpty_nil, if_true] at hdf
      exact hne (by simpa using hdf.symm)
    | cons a l => rfl
  rw [get_pokemon_weakness_profile, hempty] at hdf
  simp only [Bool.false_eq_true, if_false] at hdf
  cases hfind : s.pokemon.find? (fun p => p.id == pid) with
  | none => rw [hfind] at hdf; cases hdf
  | some pk => exact ⟨pk, rfl⟩

/-- C5.  Counter recommendation: for a Pokémon with non-empty weakness
profile `df` and any `top_n`, `recommend_counter_types` succeeds and
returns exactly the first `top_n` entries of a descending-sorted
arrangement of the profile entries whose combined effectiveness
exceeds `1.0` (so under truncation only maximal entries are kept, up
to tie order, and without truncation all of them appear), each labeled
`extremely effective` when the multiplier is at least `4.0`,
`super effective` when at least `2.0`, and the literal multiplier
otherwise. -/
theorem counter_recommendation_spec (s : Store) (pid : Int) (top_n : Nat)
    (df : List (String × ℚ))
    (hdf : get_pokemon_weakness_profile s pid = some df) (hne : df ≠ []) :
    (recommend_counter_types s pid top_n).isSome = true ∧
    ((recommend_counter_types s pid top_n).getD []).length =
      min (df.filter fun r => decide (1 < r.2)).length top_n ∧
    (∀ r ∈ (recommend_counter_types s pid top_n).getD [],
      1 < r.2.1 ∧ (r.1, r.2.1) ∈ df) ∧
    ((df.filter fun r => decide (1 < r.2)).length ≤ top_n →
      ∀ p ∈ df, 1 < p.2 →
        (p.1, p.2, get_effectiveness_label p.2) ∈ (recommend_counter_types s pid top_n).getD []) ∧
    List.Chain' (fun a b => b.2.1 ≤ a.2.1) ((recommend_counter_types s pid top_n).getD []) ∧
    (∃ l, List.Perm l (df.filter fun r => decide (1 < r.2)) ∧
      List.Chain' (fun a b : String × ℚ => b.2 ≤ a.2) l ∧
      (recommend_counter_types s pid top_n).getD [] =
        (l.take top_n).map (fun r => (r.1, r.2, get_effectiveness_label r.2))) ∧
    (∀ r ∈ (recommend_counter_types s pid top_n).getD [],
      r.2.2 = get_effectiveness_label r.2.1) ∧
    (∀ v : ℚ,
      (4 ≤ v → get_effectiveness_label v = EffLabel.extremelyEffective) ∧
      (2 ≤ v → v < 4 → get_effectiveness_label v = EffLabel.superEffective) ∧
      (v < 2 → get_effectiveness_label v = EffLabel.plainValue v)) := by
  obtain ⟨pk, hfind⟩ := profile_shape s pid df hdf hne
  have hempty : df.isEmpty = false := by
    cases df with
    | nil => exact absurd rfl hne
    | cons a l => rfl
  have hres : recommend_counter_types s pid top_n =
      some ((if top_n < (sort_desc (df.filter fun r => decide (1 < r.2))).length then
          (sort_desc (df.filter fun r => decide (1 < r.2))).take top_n
        else sort_desc (df.filter fun r => decide (1 < r.2))).map
          (fun r => (r.1, r.2, get_effectiveness_label r.2))) := by
    rw [recommend_counter_types, hdf]
    simp only [hempty, Bool.false_eq_true, if_false, hfind]
  have hperm : List.Perm (sort_desc (df.filter fun r => decide (1 < r.2)))
      (df.filter fun r => decide (1 < r.2)) := sort_with_perm _ _
  have hlenS : (sort_desc (df.filter fun r => decide (1 < r.2))).length =
      (df.filter fun r => decide (1 < r.2)).length := hperm.length_eq
  have htot : ∀ a b : String × ℚ,
      (fun y x => decide (x.2 ≤ y.2)) a b = false →
      (fun y x => decide (x.2 ≤ y.2)) b a = true := by
    intro a b h
    simp only [decide_eq_false_iff_not] at h
    simpa using le_of_not_le h
  have hsorted := sort_with_chain htot (df.filter fun r => decide (1 < r.2))
  refine ⟨by rw [hres]; rfl, ?_, ?_, ?_, ?_, ?_, ?_, ?_⟩
  · rw [hres]
    simp only [Option.getD_some, List.length_map]
    by_cases htr : top_n < (sort_desc (df.filter fun r => decide (1 < r.2))).length
    · rw [if_pos htr, List.length_take]
      omega
    · rw [if_neg htr]
      omega
  · rw [hres]
    simp only [Option.getD_some]
    intro r hr
    obtain ⟨q, hqT, hq⟩ := List.mem_map.mp hr
    have hqS : q ∈ sort_desc (df.filter fun r => decide (1 < r.2)) := by
      by_cases htr : top_n < (sort_desc (df.filter fun r => decide (1 < r.2))).length
      · rw [if_pos htr] at hqT
        exact List.take_subset top_n _ hqT
      · rwa [if_neg htr] at hqT
    have hqC := hperm.mem_iff.mp hqS
    obtain ⟨hqdf, hq2⟩ := List.mem_filter.mp hqC
    subst hq
    exact ⟨by simpa using hq2, by simpa using hqdf⟩
  · intro hlen p hp hp2
    rw [hres]
    simp only [Option.getD_some]
    have hT : (if top_n < (sort_desc (df.filter fun r => decide (1 < r.2))).length then
        (sort_desc (df.filter fun r => decide (1 < r.2))).take top_n
      else sort_desc (df.filter fun r => decide (1 < r.2))) =
        sort_desc (df.filter fun r => decide (1 < r.2)) := by
      rw [if_neg (by omega)]
    rw [hT]
    have hpC : p ∈ df.filter (fun r => decide (1 < r.2)) :=
      List.mem_filter.mpr ⟨hp, by simpa using hp2⟩
    exact List.mem_map_of_mem _ (hperm.mem_iff.mpr hpC)
  · rw [hres]
    simp only [Option.getD_some]
    have hchT : List.Chain' (fun a b : String × ℚ => decide (b.2 ≤ a.2) = true)
        (if top_n < (sort_desc (df.filter fun r => decide (1 < r.2))).length then
          (sort_desc (df.filter fun r => decide (1 < r.2))).take top_n
        else sort_desc (df.filter fun r => decide (1 < r.2))) := by
      by_cases htr : top_n < (sort_desc (df.filter fun r => decide (1 < r.2))).length
      · rw [if_pos htr]
        exact hsorted.prefix (List.take_prefix top_n _)
      · rwa [if_neg htr]
    rw [List.chain'_map]
    exact hchT.imp fun a b h => by simpa using h
  · refine ⟨sort_desc (df.filter fun r => decide (1 < r.2)), hperm,
      hsorted.imp fun a b h => by simpa using h, ?_⟩
    rw [hres]
    simp only [Option.getD_some]
    by_cases htr : top_n < (sort_desc (df.filter fun r => decide (1 < r.2))).length
    · rw [if_pos htr]
    · rw [if_neg htr, List.take_of_length_le (by omega)]
  · rw [hres]
    simp only [Option.getD_some]
    intro r hr
    obtain ⟨q, _, hq⟩ := List.mem_map.mp hr
    subst hq
    rfl
  · intro v
    refine ⟨fun h4 => by simp [get_effectiveness_label, h4], fun h2 h4 => ?_, fun h2 => ?_⟩
    · rw [get_effectiveness_label, if_neg (by exact not_le.mpr h4), if_pos h2]
    · rw [get_effectiveness_label, if_neg (by exact not_le.mpr (lt_trans h2 (by norm_num))),
        if_neg (by exact not_le.mpr h2)]

/-- Witness for C5: `c5_store`'s grass Pokémon 25 with `top_n = 5`;
the single profile row is symbolic, so the hypotheses reduce by
computation. -/
theorem counter_recommendation_spec_witness :
    (recommend_counter_types c5_store 25 5).isSome = true ∧
    ((recommend_counter_types c5_store 25 5).getD []).length =
      min ([("fire", combined_effectiveness c5_store (pokemon_type_names c5_store 25) "fire")].filter
        fun r => decide (1 < r.2)).length 5 ∧
    (∀ r ∈ (recommend_counter_types c5_store 25 5).getD [],
      1 < r.2.1 ∧ (r.1, r.2.1) ∈
        [("fire", combined_effectiveness c5_store (pokemon_type_names c5_store 25) "fire")]) ∧
    (([("fire", combined_effectiveness c5_store (pokemon_type_names c5_store 25) "fire")].filter
        fun r => decide (1 < r.2)).length ≤ 5 →
      ∀ p ∈ [("fire", combined_effectiveness c5_store (pokemon_type_names c5_store 25) "fire")],
        1 < p.2 →
        (p.1, p.2, get_effectiveness_label p.2) ∈ (recommend_counter_types c5_store 25 5).getD []) ∧
    List.Chain' (fun a b => b.2.1 ≤ a.2.1) ((recommend_counter_types c5_store 25 5).getD []) ∧
    (∃ l, List.Perm l
        ([("fire", combined_effectiveness c5_store (pokemon_type_names c5_store 25) "fire")].filter
          fun r => decide (1 < r.2)) ∧
      List.Chain' (fun a b : String × ℚ => b.2 ≤ a.2) l ∧
      (recommend_counter_types c5_store 25 5).getD [] =
        (l.take 5).map (fun r => (r.1, r.2, get_effectiveness_label r.2))) ∧
    (∀ r ∈ (recommend_counter_types c5_store 25 5).getD [],
      r.2.2 = get_effectiveness_label r.2.1) ∧
    (∀ v : ℚ,
      (4 ≤ v → get_effectiveness_label v = EffLabel.extremelyEffective) ∧
      (2 ≤ v → v < 4 → get_effectiveness_label v = EffLabel.superEffective) ∧
      (v < 2 → get_effectiveness_label v = EffLabel.plainValue v)) :=
  counter_recommendation_spec c5_store 25 5
    [("fire", combined_effectiveness c5_store (pokemon_type_names c5_store 25) "fire")]
    rfl (by simp)

/-! ## C9 — no cache effects when the cache is disabled -/

theorem get_attempt_no_cache (c : ApiClient) (fs : List (String × Json))
    (net : Except Unit Json) (endpoint : String) :
    get_attempt c fs net endpoint false = ⟨net, fs, 1, 0, 0⟩ := by
  cases net <;> rfl

theorem get_retry_no_cache (c : ApiClient) (net : Nat → Except Unit Json) (endpoint : String) :
    ∀ (t : Nat) (fs : List (String × Json)) (k : Nat),
      (get_retry c net endpoint false fs k t).fs = fs ∧
      (get_retry c net endpoint false fs k t).cache_reads = 0 ∧
      (get_retry c net endpoint false fs k t).cache_writes = 0 := by
  intro t
  induction t with
  | zero =>
    intro fs k
    rw [get_retry, get_attempt_no_cache]
    exact ⟨rfl, rfl, rfl⟩
  | succ t ih =>
    intro fs k
    rw [get_retry, get_attempt_no_cache]
    cases hnet : net k with
    | ok d => exact ⟨rfl, rfl, rfl⟩
    | error e =>
      obtain ⟨h1, h2, h3⟩ := ih fs (k + 1)
      simp only []
      exact ⟨h1, by simp [h2], by simp [h3]⟩

/-- C9.  Frame property of `get(endpoint, use_cache=False)`: the call
never reads a cache file, never writes one, and leaves the cache
directory contents unchanged — for every client, starting file system,
endpoint, and network behaviour (success or failure on any attempt). -/
theorem no_cache_effects_when_disabled (c : ApiClient) (fs : List (String × Json))
    (net : Nat → Except Unit Json) (endpoint : String) :
    (client_get c fs net endpoint false).fs = fs ∧
    (client_get c fs net endpoint false).cache_reads = 0 ∧
    (client_get c fs net endpoint false).cache_writes = 0 :=
  get_retry_no_cache c net endpoint 4 fs 0

/-! ## C4 — cache short-circuit (corrected: Python truthiness re-fetches
falsy cached payloads) -/

theorem fs_set_cons_match {p : String} {v : Json} {e : String × Json}
    {fs : List (String × Json)} (he : (e.1 == p) = true) :
    fs_set (e :: fs) p v = (p, v) :: fs := by
  have hany : (e :: fs).any (fun x => x.1 == p) = true := by simp [he]
  simp [fs_set, hany, update_first, he]

theorem fs_set_cons_nomatch {p : String} {v : Json} {e : String × Json}
    {fs : List (String × Json)} (he : (e.1 == p) = false) :
    fs_set (e :: fs) p v = e :: fs_set fs p v := by
  cases hrest : fs.any (fun x => x.1 == p) with
  | true =>
    have hany : (e :: fs).any (fun x => x.1 == p) = true := by simp [hrest]
    simp [fs_set, hany, hrest, update_first, he]
  | false =>
    have hany : (e :: fs).any (fun x => x.1 == p) = false := by simp [he, hrest]
    simp [fs_set, hany, hrest]

theorem fs_read_fs_set_same (p : String) (v : Json) :
    ∀ fs : List (String × Json), fs_read (fs_set fs p v) p = some v := by
  intro fs
  induction fs with
  | nil => simp [fs_set, fs_read]
  | cons e rest ih =>
    by_cases he : (e.1 == p) = true
    · rw [fs_set_cons_match he]
      simp [fs_read]
    · have he' : (e.1 == p) = false := by simpa using he
      rw [fs_set_cons_nomatch he']
      simpa [fs_read, he'] using ih

theorem get_attempt_cold (c : ApiClient) (fs : List (String × Json))
    (endpoint : String) (j : Json)
    (hcold : fs_read fs (get_cache_path c endpoint) = none) :
    get_attempt c fs (Except.ok j) endpoint true =
      ⟨Except.ok j, fs_set fs (get_cache_path c endpoint) j, 1, 0, 1⟩ := by
  simp [get_attempt, hcold]

theorem get_attempt_hit (c : ApiClient) (fs : List (String × Json))
    (net : Except Unit Json) (endpoint : String) (j : Json)
    (hhit : fs_read fs (get_cache_path c endpoint) = some j)
    (htruthy : j.truthy = true) :
    get_attempt c fs net endpoint true = ⟨Except.ok j, fs, 0, 1, 0⟩ := by
  simp [get_attempt, hhit, htruthy]

theorem get_retry_succ_of_ok {c : ApiClient} {net : Nat → Except Unit Json}
    {endpoint : String} {u : Bool} {fs : List (String × Json)} {k t : Nat}
    {o : GetOutcome} (ho : get_attempt c fs (net k) endpoint u = o)
    {j : Json} (hok : o.result = Except.ok j) :
    get_retry c net endpoint u fs k (t + 1) = o := by
  rw [get_retry, ho, hok]

/-- C4 counterexample: with the empty object `{}` as the network
response (a falsy JSON value), two consecutive
`get("pokemon/2", use_cache=True)` calls each perform a network
request: the second call reads the cache file written by the first,
but `if cached_data:` treats the falsy payload as a miss and fetches
again.  The claim's "exactly one network request" fails. -/
theorem cache_short_circuit_cex :
    (client_get ex_client [] (fun _ => Except.ok ex_falsy_json) "pokemon/2" true).net_calls = 1 ∧
    (client_get ex_client
        (client_get ex_client [] (fun _ => Except.ok ex_falsy_json) "pokemon/2" true).fs
        (fun _ => Except.ok ex_falsy_json) "pokemon/2" true).cache_reads = 1 ∧
    ¬ ((client_get ex_client
        (client_get ex_client [] (fun _ => Except.ok ex_falsy_json) "pokemon/2" true).fs
        (fun _ => Except.ok ex_falsy_json) "pokemon/2" true).net_calls = 0) := by
  refine ⟨by decide, by decide, by decide⟩

/-- C4 amended: the cache path is a pure deterministic function of the
endpoint string (given the cache root), and — provided the endpoint's
response JSON is truthy (as every real PokéAPI payload is) and no
cache file exists yet for the endpoint — calling
`get(endpoint, use_cache=True)` twice in a row performs exactly one
network request: the first call fetches once and writes the cache
file, the second call performs no network request at all (for any
network behaviour) and is served the first call's payload from that
file, leaving the file system unchanged. -/
theorem cache_short_circuit_amended (c : ApiClient) (fs : List (String × Json))
    (net net2 : Nat → Except Unit Json) (endpoint : String) (j : Json)
    (hnet : net 0 = Except.ok j) (htruthy : j.truthy = true)
    (hcold : fs_read fs (get_cache_path c endpoint) = none) :
    (∀ c2 : ApiClient, c2.cache_dir = c.cache_dir →
      get_cache_path c2 endpoint = get_cache_path c endpoint) ∧
    (client_get c fs net endpoint true).net_calls = 1 ∧
    (client_get c fs net endpoint true).result = Except.ok j ∧
    fs_read (client_get c fs net endpoint true).fs (get_cache_path c endpoint) = some j ∧
    (client_get c (client_get c fs net endpoint true).fs net2 endpoint true).net_calls = 0 ∧
    (client_get c (client_get c fs net endpoint true).fs net2 endpoint true).result =
      Except.ok j ∧
    (client_get c (client_get c fs net endpoint true).fs net2 endpoint true).fs =
      (client_get c fs net endpoint true).fs := by
  have ha1 : get_attempt c fs (net 0) endpoint true =
      ⟨Except.ok j, fs_set fs (get_cache_path c endpoint) j, 1, 0, 1⟩ := by
    rw [hnet]
    exact get_attempt_cold c fs endpoint j hcold
  have h1 : client_get c fs net endpoint true =
      ⟨Except.ok j, fs_set fs (get_cache_path c endpoint) j, 1, 0, 1⟩ := by
    rw [client_get]
    exact get_retry_succ_of_ok ha1 rfl
  have hhit : fs_read (fs_set fs (get_cache_path c endpoint) j) (get_cache_path c endpoint) =
      some j := fs_read_fs_set_same _ _ fs
  have ha2 : get_attempt c (fs_set fs (get_cache_path c endpoint) j) (net2 0) endpoint true =
      ⟨Except.ok j, fs_set fs (get_cache_path c endpoint) j, 0, 1, 0⟩ :=
    get_attempt_hit c _ (net2 0) endpoint j hhit htruthy
  have h2 : client_get c (fs_set fs (get_cache_path c endpoint) j) net2 endpoint true =
      ⟨Except.ok j, fs_set fs (get_cache_path c endpoint) j, 0, 1, 0⟩ := by
    rw [client_get]
    exact get_retry_succ_of_ok ha2 rfl
  refine ⟨fun c2 h => by simp [get_cache_path, h], ?_, ?_, ?_, ?_, ?_, ?_⟩
  · rw [h1]
  · rw [h1]
  · rw [h1]; exact hhit
  · rw [h1]; rw [h2]
  · rw [h1]; rw [h2]
  · rw [h1]; rw [h2]

/-- Witness for C4 amended: a concrete truthy payload fetched twice
from a cold cache. -/
theorem cache_short_circuit_amended_witness :
    (∀ c2 : ApiClient, c2.cache_dir = ex_client.cache_dir →
      get_cache_path c2 "pokemon/2" = get_cache_path ex_client "pokemon/2") ∧
    (client_get ex_client [] (fun _ => Except.ok ex_truthy_json) "pokemon/2" true).net_calls = 1 ∧
    (client_get ex_client [] (fun _ => Except.ok ex_truthy_json) "pokemon/2" true).result =
      Except.ok ex_truthy_json ∧
    fs_read (client_get ex_client [] (fun _ => Except.ok ex_truthy_json) "pokemon/2" true).fs
      (get_cache_path ex_client "pokemon/2") = some ex_truthy_json ∧
    (client_get ex_client
      (client_get ex_client [] (fun _ => Except.ok ex_truthy_json) "pokemon/2" true).fs
      (fun _ => Except.error ()) "pokemon/2" true).net_calls = 0 ∧
    (client_get ex_client
      (client_get ex_client [] (fun _ => Except.ok ex_truthy_json) "pokemon/2" true).fs
      (fun _ => Except.error ()) "pokemon/2" true).result = Except.ok ex_truthy_json ∧
    (client_get ex_client
      (client_get ex_client [] (fun _ => Except.ok ex_truthy_json) "pokemon/2" true).fs
      (fun _ => Except.error ()) "pokemon/2" true).fs =
      (client_get ex_client [] (fun _ => Except.ok ex_truthy_json) "pokemon/2" true).fs :=
  cache_short_circuit_amended ex_client [] (fun _ => Except.ok ex_truthy_json)
    (fun _ => Except.error ()) "pokemon/2" ex_truthy_json rfl (by decide) rfl

/-! ## C8 — cache-key collisions -/

/-- C8.  The cache path function is not injective: the distinct
endpoints `type/13` and `type?13` map to the same cache file for every
client, and a response cached for `type/13` is then served verbatim to
a `get("type?13")` call with no network request made. -/
theorem cache_key_collision :
    (∀ c : ApiClient, get_cache_path c "type/13" = get_cache_path c "type?13") ∧
    ("type/13" ≠ "type?13") ∧
    (client_get ex_client
        (client_get ex_client [] (fun _ => Except.ok ex_truthy_json) "type/13" true).fs
        (fun _ => Except.error ()) "type?13" true).net_calls = 0 ∧
    (client_get ex_client
        (client_get ex_client [] (fun _ => Except.ok ex_truthy_json) "type/13" true).fs
        (fun _ => Except.error ()) "type?13" true).result = Except.ok ex_truthy_json := by
  refine ⟨fun c => rfl, by decide, by decide, by with_unfolding_all rfl⟩

/-! ## C6 — move filtering: first allow-listed version group wins -/

theorem first_allowed_detail_none_iff :
    ∀ ds : List VersionGroupDetail,
      (first_allowed_detail ds = none ↔
        ∀ d ∈ ds, d.version_group ∉ allowed_version_groups) := by
  intro ds
  induction ds with
  | nil => simp [first_allowed_detail]
  | cons e rest ih =>
    by_cases he : allowed_version_groups.contains e.version_group = true
    · simp only [first_allowed_detail]
      rw [if_pos he]
      constructor
      · intro h; cases h
      · intro h; exact absurd (by simpa using he) (h e (List.mem_cons_self e rest))
    · simp only [first_allowed_detail]
      rw [if_neg he]
      rw [ih]
      constructor
      · intro h d hd
        cases List.mem_cons.mp hd with
        | inl hh =>
          subst hh
          intro hmem
          exact he (mem_contains_true hmem)
        | inr hh => exact h d hh
      · intro h d hd
        exact h d (List.mem_cons_of_mem e hd)

theorem first_allowed_detail_first_match :
    ∀ (ds : List VersionGroupDetail) (d : VersionGroupDetail),
      first_allowed_detail ds = some d →
      ∃ pre suf, ds = pre ++ d :: suf ∧
        (∀ x ∈ pre, x.version_group ∉ allowed_version_groups) ∧
        d.version_group ∈ allowed_version_groups := by
  intro ds
  induction ds with
  | nil => intro d h; simp [first_allowed_detail] at h
  | cons e rest ih =>
    intro d h
    by_cases he : allowed_version_groups.contains e.version_group = true
    · simp only [first_allowed_detail] at h
      rw [if_pos he] at h
      injection h with hh
      subst hh
      refine ⟨[], rest, rfl, ?_, ?_⟩
      · intro x hx; cases hx
      · simpa using he
    · simp only [first_allowed_detail] at h
      rw [if_neg he] at h
      obtain ⟨pre, suf, hds, hpre, hd⟩ := ih d h
      refine ⟨e :: pre, suf, by rw [hds]; rfl, ?_, hd⟩
      intro x hx
      cases List.mem_cons.mp hx with
      | inl hh =>
        subst hh
        intro hmem
        exact he (mem_contains_true hmem)
      | inr hh => exact hpre x hh

/-- C6.  Move filtering: for every raw Pokémon record and move entry
(whose move-url id extraction succeeds, as the transform requires), at
most one move row is emitted per entry; zero rows when no
version-group detail is allow-listed; and when the first allow-listed
detail is `d`, exactly the one row carrying `d`'s learn method and
level is emitted.  `first_allowed_detail` really is first-match-wins
(everything before the returned detail is outside the allow-list), and
`transform_pokemon`'s move list is the concatenation of the per-entry
contributions. -/
theorem move_filtering_first_match :
    (∀ (pid : Int) (e : MoveEntry) (mid : Int),
      extract_id_from_url e.move_url = some mid →
      (∃ ms, moves_for_entry pid e = some ms ∧ ms.length ≤ 1) ∧
      (first_allowed_detail e.version_group_details = none →
        moves_for_entry pid e = some []) ∧
      (∀ d, first_allowed_detail e.version_group_details = some d →
        moves_for_entry pid e =
          some [⟨pid, mid, d.level_learned_at, d.move_learn_method⟩])) ∧
    (∀ ds : List VersionGroupDetail,
      (first_allowed_detail ds = none ↔
        ∀ d ∈ ds, d.version_group ∉ allowed_version_groups) ∧
      (∀ d, first_allowed_detail ds = some d →
        ∃ pre suf, ds = pre ++ d :: suf ∧
          (∀ x ∈ pre, x.version_group ∉ allowed_version_groups) ∧
          d.version_group ∈ allowed_version_groups)) ∧
    (∀ (pid : Int) (entries : List MoveEntry) (rows : List PokemonMoveRow),
      transform_moves pid entries = some rows →
      rows = entries.flatMap (fun e => (moves_for_entry pid e).getD [])) := by
  refine ⟨?_,
    fun ds => ⟨first_allowed_detail_none_iff ds,
      fun d => first_allowed_detail_first_match ds d⟩, ?_⟩
  · intro pid e mid hext
    refine ⟨?_, ?_, ?_⟩
    · cases hfa : first_allowed_detail e.version_group_details with
      | none =>
        exact ⟨[], by simp [moves_for_entry, hext, hfa], by simp⟩
      | some d =>
        exact ⟨[⟨pid, mid, d.level_learned_at, d.move_learn_method⟩],
          by simp [moves_for_entry, hext, hfa], by simp⟩
    · intro hfa
      simp [moves_for_entry, hext, hfa]
    · intro d hfa
      simp [moves_for_entry, hext, hfa]
  · intro pid entries
    induction entries with
    | nil =>
      intro rows h
      simp only [transform_moves] at h
      injection h with hh
      simp [hh.symm]
    | cons e rest ih =>
      intro rows h
      simp only [transform_moves] at h
      cases hme : moves_for_entry pid e with
      | none => rw [hme] at h; simp at h
      | some ms =>
        rw [hme] at h
        cases htr : transform_moves pid rest with
        | none => rw [htr] at h; simp at h
        | some rest2 =>
          rw [htr] at h
          simp only [Option.bind_some, Option.pure_def] at h
          have hrows : ms ++ rest2 = rows := by
            cases h
            rfl
          rw [← hrows]
          simp [hme, ih rest2 htr]

/-- Witness for C6: the spec's example move entry (`sword-shield`,
machine, level 0) produces exactly one row; the entry present only
under a version group outside the allow-list produces zero rows; a
record containing both entries transforms to exactly the one row. -/
theorem move_filtering_first_match_witness :
    moves_for_entry 25 ex_move_entry =
      some [(⟨25, 84, 0, "machine"⟩ : PokemonMoveRow)] ∧
    moves_for_entry 25 ex_move_entry_unlisted = some [] ∧
    ([(⟨25, 84, 0, "machine"⟩ : PokemonMoveRow)] =
      [ex_move_entry, ex_move_entry_unlisted].flatMap
        (fun e => (moves_for_entry 25 e).getD [])) :=
  ⟨(move_filtering_first_match.1 25 ex_move_entry 84
      (by with_unfolding_all rfl)).2.2 ⟨"sword-shield", 0, "machine"⟩ (by decide),
   (move_filtering_first_match.1 25 ex_move_entry_unlisted 84
      (by with_unfolding_all rfl)).2.1 (by decide),
   move_filtering_first_match.2.2 25 [ex_move_entry, ex_move_entry_unlisted]
      [⟨25, 84, 0, "machine"⟩] (by with_unfolding_all rfl)⟩

end PokemonPlatform
